import Mathlib

/-!
Verification of the AI_PVSim pole-vault analysis pipeline
(`pv_analyzer/phase_detector.py`, `pv_analyzer/energy_calculator.py`,
`pv_analyzer/performance_comparator.py`).

The Python floats are embedded as exact rationals (`ℚ`) where the source
computes only field operations and comparisons, and as reals (`ℝ`) where the
source takes square roots (`np.sqrt`) or arctangents (`np.arctan2`).
Python dicts keyed by strings are embedded as association lists with
insert-or-replace update (`dictInsert`), matching CPython's key-preserving
value overwrite.
-/

/-- One 2-D landmark position (the `visibility`/`z` fields are never read by
the analysis pipeline and are omitted). -/
structure Pos where
  x : ℚ
  y : ℚ
deriving DecidableEq

/-- The landmarks of one detected frame.  Only the four torso points and the
two ankles are ever read by `phase_detector.py` / `energy_calculator.py`. -/
structure Frame where
  left_hip : Pos
  right_hip : Pos
  left_shoulder : Pos
  right_shoulder : Pos
  left_ankle : Pos
  right_ankle : Pos
deriving DecidableEq

/-- Video metadata (`video_info` dict); only `fps` is read by the pipeline. -/
structure VideoInfo where
  fps : ℚ
  width : ℕ
  height : ℕ
  total_frames : ℕ

/-- The `VaultPhase` enumeration of `phase_detector.py`. -/
inductive VaultPhase where
  | RUN
  | PLANT
  | TAKEOFF
  | SWING_UP
  | EXTENSION_INVERSION
  | PUSH_OFF
  | PIKE
deriving DecidableEq

/-- The `.value` string of each `VaultPhase` enum member. -/
def phaseValue : VaultPhase → String
  | .RUN => "run"
  | .PLANT => "plant"
  | .TAKEOFF => "take-off"
  | .SWING_UP => "swing-up"
  | .EXTENSION_INVERSION => "extension/inversion"
  | .PUSH_OFF => "push-off"
  | .PIKE => "pike"

/-- Python dict update `m[k] = v`: replace the value in place if the key is
present, otherwise append the new binding at the end. -/
def dictInsert {V : Type} (m : List (String × V)) (k : String) (v : V) :
    List (String × V) :=
  if m.any (fun p => p.1 = k) then
    m.map (fun p => if p.1 = k then (k, v) else p)
  else
    m ++ [(k, v)]

/-- Python `max` over a non-empty list (0 for the empty list, which the
source never passes). -/
def listMax (l : List ℚ) : ℚ :=
  match l with
  | [] => 0
  | x :: xs => xs.foldl max x

/-- Python `min` over a non-empty list (0 for the empty list). -/
def listMin (l : List ℚ) : ℚ :=
  match l with
  | [] => 0
  | x :: xs => xs.foldl min x

/-- `np.mean` over a rational list (`sum / length`). -/
def meanQ (l : List ℚ) : ℚ := l.sum / l.length

/-! ## Performance comparator (`performance_comparator.py`)

The comparator reads exactly two fields of each athlete phase record
(`energy_generated`, `duration`), so athlete records are embedded with just
those fields. -/

/-- The two fields of an athlete phase-energy record read by
`PerformanceComparator._compare_to_reference`. -/
structure AthleteRec where
  energy_generated : ℚ
  duration : ℚ
deriving DecidableEq

/-- `{max, average}` display statistics stored in the reference catalog. -/
structure RefStats where
  max : ℚ
  average : ℚ
deriving DecidableEq

/-- One phase entry of a built-in reference profile. -/
structure RefPhase where
  kinetic_energy : Option RefStats
  potential_energy : Option RefStats
  energy_generated : ℚ
  optimal_duration : ℚ
deriving DecidableEq

/-- One built-in reference athlete profile. -/
structure RefAthlete where
  name : String
  best_height : ℚ
  mass : ℚ
  phase_energies : List (String × RefPhase)

/-- `REFERENCE_ATHLETES['mondo_duplantis']`. -/
def mondoDuplantis : RefAthlete :=
  { name := "Armand \"Mondo\" Duplantis"
    best_height := 624/100
    mass := 79
    phase_energies :=
      [ ("run", ⟨some ⟨2500, 2300⟩, none, 2200, 35/10⟩)
      , ("plant", ⟨some ⟨2400, 2200⟩, none, 200, 3/10⟩)
      , ("take-off", ⟨some ⟨2300, 2100⟩, some ⟨500, 400⟩, 300, 4/10⟩)
      , ("swing-up", ⟨none, some ⟨1500, 1200⟩, 800, 8/10⟩)
      , ("extension/inversion", ⟨none, some ⟨3500, 3000⟩, 1200, 6/10⟩)
      , ("push-off", ⟨none, some ⟨4800, 4500⟩, 500, 3/10⟩)
      , ("pike", ⟨none, some ⟨4500, 3500⟩, -200, 5/10⟩) ] }

/-- `REFERENCE_ATHLETES['karvala_manolo']`. -/
def karvalaManolo : RefAthlete :=
  { name := "Karvalho Manolo (Fictional Reference)"
    best_height := 605/100
    mass := 75
    phase_energies :=
      [ ("run", ⟨some ⟨2300, 2100⟩, none, 2000, 38/10⟩)
      , ("plant", ⟨some ⟨2200, 2000⟩, none, 180, 35/100⟩)
      , ("take-off", ⟨some ⟨2100, 1900⟩, some ⟨450, 370⟩, 280, 45/100⟩)
      , ("swing-up", ⟨none, some ⟨1400, 1100⟩, 750, 85/100⟩)
      , ("extension/inversion", ⟨none, some ⟨3300, 2800⟩, 1100, 65/100⟩)
      , ("push-off", ⟨none, some ⟨4500, 4200⟩, 450, 35/100⟩)
      , ("pike", ⟨none, some ⟨4300, 3300⟩, -180, 55/100⟩) ] }

/-- The `REFERENCE_ATHLETES` catalog, in source order. -/
def REFERENCE_ATHLETES : List (String × RefAthlete) :=
  [("mondo_duplantis", mondoDuplantis), ("karvala_manolo", karvalaManolo)]

/-- One entry of `phase_comparisons` built by `_compare_to_reference`. -/
structure PhaseComparison where
  athlete_energy : ℚ
  reference_energy : ℚ
  energy_difference : ℚ
  energy_ratio : ℚ
  athlete_duration : ℚ
  reference_duration : ℚ
  duration_difference : ℚ
  performance_level : String
deriving DecidableEq

/-- The loop body of `_compare_to_reference` over the athlete's phase map
(in insertion order).  Recommendations are embedded as `(phase, issue_type)`
tags; the formatted percentage text of the `issue` string carries no further
information used anywhere. -/
def comparePhasesGo (ref : List (String × RefPhase)) (am rm : ℚ) :
    List (String × AthleteRec) →
    List (String × PhaseComparison) × List (String × String) →
    List (String × PhaseComparison) × List (String × String)
  | [], acc => acc
  | (k, a) :: rest, (pcs, recs) =>
    match ref.lookup k with
    | none => comparePhasesGo ref am rm rest (pcs, recs)
    | some rp =>
      let mf := am / rm
      let scaled := rp.energy_generated * mf
      let ediff := a.energy_generated - scaled
      let ratio := if scaled ≠ 0 then a.energy_generated / scaled else 0
      let ddiff := a.duration - rp.optimal_duration
      let perf :=
        if ratio ≥ 95/100 then "Excellent"
        else if ratio ≥ 85/100 then "Good"
        else if ratio ≥ 75/100 then "Fair"
        else "Needs Improvement"
      let pc : PhaseComparison :=
        ⟨a.energy_generated, scaled, ediff, ratio, a.duration,
          rp.optimal_duration, ddiff, perf⟩
      let recs1 := if ratio < 85/100 then recs ++ [(k, "energy")] else recs
      let recs2 :=
        if |ddiff| > 2/10 then
          if ddiff > 0 then recs1 ++ [(k, "duration_long")]
          else recs1 ++ [(k, "duration_short")]
        else recs1
      comparePhasesGo ref am rm rest (dictInsert pcs k pc, recs2)

/-- `PerformanceComparator._calculate_overall_score`. -/
def overallScore (pcs : List (String × PhaseComparison)) : ℚ :=
  if pcs.isEmpty then 0
  else meanQ (pcs.map (fun p => min (p.2.energy_ratio * 100) 100))

/-- Result record of `_compare_to_reference`. -/
structure ComparisonResult where
  reference_name : String
  phase_comparisons : List (String × PhaseComparison)
  recommendations : List (String × String)
  overall_score : ℚ
deriving DecidableEq

/-- `PerformanceComparator._compare_to_reference`. -/
def compareToReference (athlete : List (String × AthleteRec))
    (ref : List (String × RefPhase)) (am rm : ℚ) (nm : String) :
    ComparisonResult :=
  { reference_name := nm
    phase_comparisons := (comparePhasesGo ref am rm athlete ([], [])).1
    recommendations := (comparePhasesGo ref am rm athlete ([], [])).2
    overall_score := overallScore (comparePhasesGo ref am rm athlete ([], [])).1 }

/-- `PerformanceComparator.compare_performance`. -/
def compare_performance (athlete : List (String × AthleteRec)) (am : ℚ) :
    List (String × ComparisonResult) :=
  REFERENCE_ATHLETES.foldl
    (fun acc p =>
      dictInsert acc p.1
        (compareToReference athlete p.2.phase_energies am p.2.mass p.2.name))
    []

/-! ## Helper lemmas about `dictInsert`, `meanQ`, `overallScore` -/

lemma dictInsert_mem {V : Type} {m : List (String × V)} {k : String} {v : V}
    {q : String × V} (h : q ∈ dictInsert m k v) : q ∈ m ∨ q = (k, v) := by
  unfold dictInsert at h
  split at h
  · obtain ⟨p, hp, hq⟩ := List.mem_map.mp h
    by_cases hk : p.1 = k
    · right
      simp only [hk, if_pos] at hq
      exact hq.symm
    · left
      simp only [hk, if_neg, ite_false] at hq
      exact hq ▸ hp
  · rcases List.mem_append.mp h with h1 | h2
    · exact Or.inl h1
    · exact Or.inr (List.mem_singleton.mp h2)

lemma meanQ_le {l : List ℚ} {c : ℚ} (hne : l ≠ []) (h : ∀ x ∈ l, x ≤ c) :
    meanQ l ≤ c := by
  have hl : 0 < (l.length : ℚ) := by
    exact_mod_cast List.length_pos.mpr hne
  rw [meanQ, div_le_iff hl]
  have := List.sum_le_card_nsmul l c h
  simpa [nsmul_eq_mul, mul_comm] using this

lemma meanQ_nonneg {l : List ℚ} (h : ∀ x ∈ l, 0 ≤ x) : 0 ≤ meanQ l :=
  div_nonneg (List.sum_nonneg h) (by positivity)

lemma overallScore_le_100 (pcs : List (String × PhaseComparison)) :
    overallScore pcs ≤ 100 := by
  unfold overallScore
  split
  · norm_num
  · next hne =>
    apply meanQ_le
    · simpa [List.isEmpty_iff] using hne
    · intro x hx
      obtain ⟨p, _, rfl⟩ := List.mem_map.mp hx
      exact min_le_right _ _

lemma overallScore_nonneg (pcs : List (String × PhaseComparison))
    (h : ∀ q ∈ pcs, 0 ≤ q.2.energy_ratio) : 0 ≤ overallScore pcs := by
  unfold overallScore
  split
  · norm_num
  · apply meanQ_nonneg
    intro x hx
    obtain ⟨p, hp, rfl⟩ := List.mem_map.mp hx
    exact le_min (mul_nonneg (h p hp) (by norm_num)) (by norm_num)

/-- Every entry of the `phase_comparisons` map built by the comparator loop
either was already in the accumulator or comes from an athlete phase present
in the reference catalog, with all its fields determined by that pair. -/
lemma comparePhasesGo_mem {ref : List (String × RefPhase)} {am rm : ℚ} :
    ∀ (athl : List (String × AthleteRec))
      (acc : List (String × PhaseComparison) × List (String × String))
      (q : String × PhaseComparison),
      q ∈ (comparePhasesGo ref am rm athl acc).1 →
      q ∈ acc.1 ∨
      ∃ a, (q.1, a) ∈ athl ∧ ∃ rp, ref.lookup q.1 = some rp ∧
        q.2.athlete_energy = a.energy_generated ∧
        q.2.reference_energy = rp.energy_generated * (am / rm) ∧
        q.2.energy_ratio =
          (if rp.energy_generated * (am / rm) ≠ 0 then
            a.energy_generated / (rp.energy_generated * (am / rm)) else 0) ∧
        q.2.athlete_duration = a.duration ∧
        q.2.reference_duration = rp.optimal_duration ∧
        q.2.performance_level =
          (if q.2.energy_ratio ≥ 95/100 then "Excellent"
           else if q.2.energy_ratio ≥ 85/100 then "Good"
           else if q.2.energy_ratio ≥ 75/100 then "Fair"
           else "Needs Improvement")
  | [], acc, q => by
    intro h
    exact Or.inl h
  | (k, a) :: rest, acc, q => by
    intro h
    obtain ⟨pcs, recs⟩ := acc
    rw [comparePhasesGo] at h
    rcases hl : ref.lookup k with _ | rp
    · rw [hl] at h
      rcases comparePhasesGo_mem rest _ q h with hacc | ⟨a', ha', rest'⟩
      · exact Or.inl hacc
      · exact Or.inr ⟨a', List.mem_cons_of_mem _ ha', rest'⟩
    · rw [hl] at h
      rcases comparePhasesGo_mem rest _ q h with hacc | ⟨a', ha', rest'⟩
      · rcases dictInsert_mem hacc with hin | rfl
        · exact Or.inl hin
        · refine Or.inr ⟨a, List.mem_cons_self _ _, rp, hl, rfl, rfl, rfl, rfl, rfl, ?_⟩
          simp only []
      · exact Or.inr ⟨a', List.mem_cons_of_mem _ ha', rest'⟩

/-- The stored `overall_score` field is the score of the stored
`phase_comparisons` field. -/
lemma compareToReference_score (athl : List (String × AthleteRec))
    (ref : List (String × RefPhase)) (am rm : ℚ) (nm : String) :
    (compareToReference athl ref am rm nm).overall_score =
      overallScore (compareToReference athl ref am rm nm).phase_comparisons := rfl

/-! ## Claims C1, C4, C6 (comparator) -/

/-- Claim C1, counterexample: an athlete `run` phase with negative
`energy_generated` (total energy fell over the phase) yields
`energy_ratio = -1` against the Duplantis profile, so `overall_score = -100`,
outside `[0, 100]`. -/
theorem overall_score_out_of_range_cex :
    ((compare_performance [("run", ⟨-2200, 7/2⟩)] 79).lookup
        "mondo_duplantis").map (fun c => c.overall_score) = some (-100) ∧
    ¬ ((0 : ℚ) ≤ -100 ∧ (-100 : ℚ) ≤ 100) := by
  constructor
  · norm_num [compare_performance, REFERENCE_ATHLETES, compareToReference,
      comparePhasesGo, dictInsert, List.lookup, overallScore, meanQ,
      mondoDuplantis, karvalaManolo]
  · norm_num

/-- Claim C1 (amended): for every athlete phase-energy map and athlete mass,
the `overall_score` returned by `compare_performance` for each reference
profile is the mean of `min(energy_ratio*100, 100)` over all compared phases
(0 when no phases are compared) and never exceeds 100; it is bounded below by
0 whenever every compared phase has a nonnegative `energy_ratio`, but can be
negative when an `energy_ratio` is negative. -/
theorem overall_score_bounds_amended
    (athlete : List (String × AthleteRec)) (am : ℚ) (refId : String)
    (c : ComparisonResult)
    (h : (compare_performance athlete am).lookup refId = some c) :
    c.overall_score ≤ 100 ∧
    (c.phase_comparisons = [] → c.overall_score = 0) ∧
    (c.phase_comparisons ≠ [] →
      c.overall_score =
        meanQ (c.phase_comparisons.map
          (fun q => min (q.2.energy_ratio * 100) 100))) ∧
    ((∀ q ∈ c.phase_comparisons, 0 ≤ q.2.energy_ratio) → 0 ≤ c.overall_score) := by
  have hscore : c.overall_score = overallScore c.phase_comparisons := by
    have hcat : compare_performance athlete am =
        [("mondo_duplantis",
            compareToReference athlete mondoDuplantis.phase_energies am
              mondoDuplantis.mass mondoDuplantis.name),
         ("karvala_manolo",
            compareToReference athlete karvalaManolo.phase_energies am
              karvalaManolo.mass karvalaManolo.name)] := by
      simp [compare_performance, REFERENCE_ATHLETES, dictInsert]
    rw [hcat] at h
    simp only [List.lookup] at h
    split at h
    · exact (Option.some_inj.mp h) ▸ rfl
    · split at h
      · exact (Option.some_inj.mp h) ▸ rfl
      · exact absurd h (by simp)
  refine ⟨?_, ?_, ?_, ?_⟩
  · rw [hscore]; exact overallScore_le_100 _
  · intro he; rw [hscore, he]; rfl
  · intro hne
    rw [hscore]
    unfold overallScore
    rw [if_neg (by simpa [List.isEmpty_iff] using hne)]
  · intro hr; rw [hscore]; exact overallScore_nonneg _ hr

/-- Claim C1 witness: a concrete athlete whose `run` phase matches the
Duplantis reference exactly scores 100, and both amended bounds hold there. -/
theorem overall_score_bounds_witness :
    ((compare_performance [("run", ⟨2200, 7/2⟩)] 79).lookup "mondo_duplantis" =
      some ⟨"Armand \"Mondo\" Duplantis",
        [("run", ⟨2200, 2200, 0, 1, 7/2, 7/2, 0, "Excellent"⟩)], [], 100⟩) ∧
    (0 : ℚ) ≤ (100 : ℚ) ∧ (100 : ℚ) ≤ 100 := by
  have h : (compare_performance [("run", ⟨2200, 7/2⟩)] 79).lookup
      "mondo_duplantis" =
      some ⟨"Armand \"Mondo\" Duplantis",
        [("run", ⟨2200, 2200, 0, 1, 7/2, 7/2, 0, "Excellent"⟩)], [], 100⟩ := by
    norm_num [compare_performance, REFERENCE_ATHLETES, compareToReference,
      comparePhasesGo, dictInsert, List.lookup, overallScore, meanQ,
      mondoDuplantis, karvalaManolo]
  refine ⟨h, ?_, ?_⟩
  · exact (overall_score_bounds_amended [("run", ⟨2200, 7/2⟩)] 79
      "mondo_duplantis" _ h).2.2.2 (by norm_num)
  · exact (overall_score_bounds_amended [("run", ⟨2200, 7/2⟩)] 79
      "mondo_duplantis" _ h).1

/-- Claim C4: every entry of `phase_comparisons` comes from an athlete phase
also present in the reference catalog, and its `energy_ratio` is 0 when the
mass-scaled reference energy is 0, and the quotient of the athlete energy by
the scaled reference energy otherwise. -/
theorem energy_ratio_zero_denominator
    (athl : List (String × AthleteRec)) (ref : List (String × RefPhase))
    (am rm : ℚ) (nm : String) (k : String) (pc : PhaseComparison)
    (h : (k, pc) ∈ (compareToReference athl ref am rm nm).phase_comparisons) :
    ∃ a, (k, a) ∈ athl ∧ ∃ rp, ref.lookup k = some rp ∧
      (rp.energy_generated * (am / rm) = 0 → pc.energy_ratio = 0) ∧
      (rp.energy_generated * (am / rm) ≠ 0 →
        pc.energy_ratio = a.energy_generated / (rp.energy_generated * (am / rm))) := by
  rcases comparePhasesGo_mem athl ([], []) (k, pc) h with hacc | ⟨a, ha, rp, hl, hfields⟩
  · exact absurd hacc (List.not_mem_nil _)
  · refine ⟨a, ha, rp, hl, ?_, ?_⟩
    · intro hz
      rw [hfields.2.2.1, if_neg (not_not_intro hz)]
    · intro hz
      rw [hfields.2.2.1, if_pos hz]

/-- Claim C4 witness: a reference phase with `energy_generated = 0` produces
`energy_ratio = 0` instead of a division fault. -/
theorem energy_ratio_zero_denominator_witness :
    (("run", (⟨5, 0, 5, 0, 1, 1, 0, "Needs Improvement"⟩ : PhaseComparison)) ∈
      (compareToReference [("run", ⟨5, 1⟩)] [("run", ⟨none, none, 0, 1⟩)]
        1 1 "ref").phase_comparisons) ∧
    (∃ a, ("run", a) ∈ ([("run", (⟨5, 1⟩ : AthleteRec))]) ∧
      ∃ rp, ([("run", (⟨none, none, 0, 1⟩ : RefPhase))]).lookup "run" = some rp ∧
        (rp.energy_generated * ((1 : ℚ) / 1) = 0 →
          (⟨5, 0, 5, 0, 1, 1, 0, "Needs Improvement"⟩ : PhaseComparison).energy_ratio = 0) ∧
        (rp.energy_generated * ((1 : ℚ) / 1) ≠ 0 →
          (⟨5, 0, 5, 0, 1, 1, 0, "Needs Improvement"⟩ : PhaseComparison).energy_ratio =
            a.energy_generated / (rp.energy_generated * ((1 : ℚ) / 1)))) := by
  have h : ("run", (⟨5, 0, 5, 0, 1, 1, 0, "Needs Improvement"⟩ : PhaseComparison)) ∈
      (compareToReference [("run", ⟨5, 1⟩)] [("run", ⟨none, none, 0, 1⟩)]
        1 1 "ref").phase_comparisons := by
    norm_num [compareToReference, comparePhasesGo, dictInsert, List.lookup]
  exact ⟨h, energy_ratio_zero_denominator [("run", ⟨5, 1⟩)]
    [("run", ⟨none, none, 0, 1⟩)] 1 1 "ref" "run"
    ⟨5, 0, 5, 0, 1, 1, 0, "Needs Improvement"⟩ h⟩

/-- Claim C6: the `performance_level` stored in every compared phase is
determined solely by its `energy_ratio` via the fixed thresholds
0.95 / 0.85 / 0.75. -/
theorem performance_level_thresholds
    (athl : List (String × AthleteRec)) (ref : List (String × RefPhase))
    (am rm : ℚ) (nm : String) (k : String) (pc : PhaseComparison)
    (h : (k, pc) ∈ (compareToReference athl ref am rm nm).phase_comparisons) :
    pc.performance_level =
      (if pc.energy_ratio ≥ 95/100 then "Excellent"
       else if pc.energy_ratio ≥ 85/100 then "Good"
       else if pc.energy_ratio ≥ 75/100 then "Fair"
       else "Needs Improvement") := by
  rcases comparePhasesGo_mem athl ([], []) (k, pc) h with hacc | ⟨a, _, rp, _, hfields⟩
  · exact absurd hacc (List.not_mem_nil _)
  · exact hfields.2.2.2.2.2

/-- Claim C6 witness: an athlete phase matching its reference exactly has
ratio 1 and is labelled Excellent by the thresholds. -/
theorem performance_level_thresholds_witness :
    (("run", (⟨2000, 2000, 0, 1, 1, 1, 0, "Excellent"⟩ : PhaseComparison)) ∈
      (compareToReference [("run", ⟨2000, 1⟩)] [("run", ⟨none, none, 2000, 1⟩)]
        1 1 "ref").phase_comparisons) ∧
    (⟨2000, 2000, 0, 1, 1, 1, 0, "Excellent"⟩ : PhaseComparison).performance_level =
      (if (⟨2000, 2000, 0, 1, 1, 1, 0, "Excellent"⟩ : PhaseComparison).energy_ratio ≥ 95/100
        then "Excellent"
       else if (⟨2000, 2000, 0, 1, 1, 1, 0, "Excellent"⟩ : PhaseComparison).energy_ratio ≥ 85/100
        then "Good"
       else if (⟨2000, 2000, 0, 1, 1, 1, 0, "Excellent"⟩ : PhaseComparison).energy_ratio ≥ 75/100
        then "Fair"
       else "Needs Improvement") := by
  have h : ("run", (⟨2000, 2000, 0, 1, 1, 1, 0, "Excellent"⟩ : PhaseComparison)) ∈
      (compareToReference [("run", ⟨2000, 1⟩)] [("run", ⟨none, none, 2000, 1⟩)]
        1 1 "ref").phase_comparisons := by
    norm_num [compareToReference, comparePhasesGo, dictInsert, List.lookup]
  exact ⟨h, performance_level_thresholds [("run", ⟨2000, 1⟩)]
    [("run", ⟨none, none, 2000, 1⟩)] 1 1 "ref" "run"
    ⟨2000, 2000, 0, 1, 1, 1, 0, "Excellent"⟩ h⟩

/-! ## Phase interval record (shared by detector and energy analyzer) -/

/-- The `velocity_stats` dict of a phase interval, field order as in the
source: `max, average, min, initial, final`. -/
structure VelocityStats where
  max : ℚ
  average : ℚ
  min : ℚ
  initial : ℚ
  final : ℚ
deriving DecidableEq

/-- One phase dict appended by `PhaseDetector.detect_phases`. -/
structure PhaseInterval where
  phase : VaultPhase
  start_frame : ℕ
  end_frame : ℕ
  duration : ℚ
  velocity_stats : VelocityStats
deriving DecidableEq

/-! ## Energy calculator (`energy_calculator.py`)

`_calculate_kinetic_energy` squares a `np.sqrt`, so kinetic energies live in
`ℝ`; potential energies involve only field arithmetic and stay in `ℚ`,
coerced to `ℝ` when summed with kinetic energies. -/

/-- Mean x of the four torso landmarks (`_get_center_of_mass` / 
`_get_center_of_mass_x`). -/
def comX (f : Frame) : ℚ :=
  (f.left_hip.x + f.right_hip.x + f.left_shoulder.x + f.right_shoulder.x) / 4

/-- Mean y of the four torso landmarks. -/
def comY (f : Frame) : ℚ :=
  (f.left_hip.y + f.right_hip.y + f.left_shoulder.y + f.right_shoulder.y) / 4

/-- The lower (larger-y) of the two ankle y-coordinates of a frame. -/
def ankleY (f : Frame) : ℚ := max f.left_ankle.y f.right_ankle.y

/-- Kinetic energy of frame `i` of a phase slice
(`EnergyCalculator._calculate_kinetic_energy` loop body): 0 for a null frame,
the slice's first frame, or a null predecessor; otherwise
`0.5 * m * v²` with `v = sqrt(dx_m² + dy_m²) / (1/fps)`. -/
noncomputable def frameKE (ls : List (Option Frame)) (fps m r : ℚ) (i : ℕ) : ℝ :=
  match ls.getD i none with
  | none => 0
  | some cur =>
    if i = 0 then 0
    else
      match ls.getD (i - 1) none with
      | none => 0
      | some prev =>
        let dxm : ℚ := (comX cur - comX prev) * r
        let dym : ℚ := (comY cur - comY prev) * r
        let dt : ℚ := 1 / fps
        let v : ℝ := Real.sqrt ((dxm : ℝ) ^ 2 + (dym : ℝ) ^ 2) / (dt : ℝ)
        (1 / 2 : ℝ) * (m : ℝ) * v ^ 2

/-- `EnergyCalculator._calculate_kinetic_energy`. -/
noncomputable def kineticEnergies (ls : List (Option Frame)) (fps m r : ℚ) :
    List ℝ :=
  (List.range ls.length).map (frameKE ls fps m r)

/-- The phase-local ground level of `_calculate_potential_energy`: a fold
that starts at 0 and maxes in the lower ankle of every non-null frame. -/
def groundLevel (ls : List (Option Frame)) : ℚ :=
  ls.foldl
    (fun g of =>
      match of with
      | none => g
      | some f => max g (ankleY f))
    0

/-- Potential energy of one frame given the phase ground level:
`max 0 (m * 9.81 * ((ground − com_y) * r))`, 0 for a null frame. -/
def framePE (m r ground : ℚ) (of : Option Frame) : ℚ :=
  match of with
  | none => 0
  | some f => max 0 (m * (981/100) * ((ground - comY f) * r))

/-- `EnergyCalculator._calculate_potential_energy`. -/
def potentialEnergies (ls : List (Option Frame)) (m r : ℚ) : List ℚ :=
  ls.map (framePE m r (groundLevel ls))

/-- Python `max` over a non-empty real list (0 for the empty list). -/
noncomputable def listMaxR (l : List ℝ) : ℝ :=
  match l with
  | [] => 0
  | x :: xs => xs.foldl max x

/-- `np.mean` over a real list. -/
noncomputable def meanR (l : List ℝ) : ℝ := l.sum / l.length

/-- The `{initial, final, max, average}` statistics dict computed for each
of the three energy series. -/
structure EStats where
  initial : ℝ
  final : ℝ
  max : ℝ
  average : ℝ

/-- The statistics of one energy series (each field is 0 when the series is
empty, mirroring the per-field `if ... else 0` guards of the source). -/
noncomputable def statsOf (l : List ℝ) : EStats :=
  if l.isEmpty then ⟨0, 0, 0, 0⟩
  else ⟨l.headD 0, l.getLastD 0, listMaxR l, meanR l⟩

/-- One phase record of the map returned by `calculate_phase_energies`. -/
structure PhaseEnergy where
  kinetic_energy : EStats
  potential_energy : EStats
  total_energy : EStats
  energy_generated : ℝ
  duration : ℚ

/-- The per-phase record built by the `calculate_phase_energies` loop body
for one phase interval. -/
noncomputable def recordOf (ls : List (Option Frame)) (fps m r : ℚ)
    (ph : PhaseInterval) : PhaseEnergy :=
  let slice := (ls.drop ph.start_frame).take (ph.end_frame + 1 - ph.start_frame)
  let kes := kineticEnergies slice fps m r
  let pes := potentialEnergies slice m r
  let tots := List.zipWith (fun (ke : ℝ) (pe : ℚ) => ke + (pe : ℝ)) kes pes
  { kinetic_energy := statsOf kes
    potential_energy := statsOf (pes.map (fun (q : ℚ) => (q : ℝ)))
    total_energy := statsOf tots
    energy_generated := if tots.isEmpty then 0 else tots.getLastD 0 - tots.headD 0
    duration := ph.duration }

/-- `EnergyCalculator.calculate_phase_energies`: a dict keyed by the phase
kind's `.value` string, built by insert-or-replace in input order. -/
noncomputable def calculatePhaseEnergies (ls : List (Option Frame))
    (phases : List PhaseInterval) (fps m r : ℚ) : List (String × PhaseEnergy) :=
  phases.foldl
    (fun acc ph => dictInsert acc (phaseValue ph.phase) (recordOf ls fps m r ph))
    []

/-! ## Energy calculator lemmas and claims C9, C3 -/

/-- Claim C9: doubling the athlete mass exactly doubles every per-frame
kinetic energy value produced by `_calculate_kinetic_energy` (the series is
linear in mass for a fixed velocity profile). -/
theorem kinetic_energy_mass_doubling (ls : List (Option Frame)) (fps m r : ℚ) :
    kineticEnergies ls fps (2 * m) r =
      (kineticEnergies ls fps m r).map (fun e => 2 * e) := by
  unfold kineticEnergies
  rw [List.map_map]
  refine List.map_congr_left ?_
  intro i _
  simp only [Function.comp]
  cases h1 : ls.getD i none with
  | none => simp only [frameKE, h1]; norm_num
  | some cur =>
    by_cases hi : i = 0
    · simp only [frameKE, h1]
      rw [if_pos hi, if_pos hi]
      norm_num
    · simp only [frameKE, h1]
      rw [if_neg hi, if_neg hi]
      cases h2 : ls.getD (i - 1) none with
      | none => simp only [h2]; norm_num
      | some prev =>
        simp only [h2]
        push_cast
        ring

lemma foldl_max_max (a b : ℚ) : ∀ t : List ℚ, t.foldl max (max a b) = max a (t.foldl max b)
  | [] => rfl
  | y :: t => by
    rw [List.foldl_cons, List.foldl_cons, max_assoc, foldl_max_max a (max b y) t]

lemma groundLevel_foldl : ∀ (ls : List (Option Frame)) (a : ℚ),
    ls.foldl
      (fun g of =>
        match of with
        | none => g
        | some f => max g (ankleY f)) a =
    ((ls.filterMap id).map ankleY).foldl max a
  | [], _ => rfl
  | none :: t, a => by
    simpa using groundLevel_foldl t a
  | some f :: t, a => by
    simpa using groundLevel_foldl t (max a (ankleY f))

/-- The fold of `_calculate_potential_energy` computes the maximum of 0 and
all observed lower-ankle heights, not the bare maximum of the observations. -/
lemma groundLevel_eq (ls : List (Option Frame)) :
    groundLevel ls = max 0 (listMax ((ls.filterMap id).map ankleY)) := by
  rw [groundLevel, groundLevel_foldl]
  cases h : (ls.filterMap id).map ankleY with
  | nil => simp [listMax]
  | cons x t =>
    rw [List.foldl_cons, foldl_max_max 0 x t]
    rfl

/-- Claim C3 (amended): the ground level used by
`_calculate_potential_energy` is the maximum of 0 and the largest ankle
y-coordinate observed over the non-null frames of the slice (the fold starts
at 0, so an all-negative observation set is clamped to 0), and the potential
energy of each frame is `max 0 (m * 9.81 * ((ground − com_y) * r))`, 0 for
null frames. -/
theorem potential_energy_ground_amended (ls : List (Option Frame)) (m r : ℚ) :
    groundLevel ls = max 0 (listMax ((ls.filterMap id).map ankleY)) ∧
    ∀ i, i < ls.length →
      (potentialEnergies ls m r).getD i 0 =
        (match ls.getD i none with
         | none => 0
         | some f => max 0 (m * (981/100) * ((groundLevel ls - comY f) * r))) := by
  refine ⟨groundLevel_eq ls, ?_⟩
  intro i hi
  have hget : ls.getD i none = ls[i] := by
    rw [List.getD_eq_getElem?_getD, List.getElem?_eq_getElem hi]
    rfl
  unfold potentialEnergies
  rw [List.getD_eq_getElem?_getD, List.getElem?_map,
    List.getElem?_eq_getElem hi, hget]
  cases ls[i] with
  | none => rfl
  | some f => rfl

/-- A frame whose landmarks all have negative y-coordinates (both ankles at
y = −10, torso at y = −20). -/
def cexFrameC3 : Frame :=
  ⟨⟨0, -20⟩, ⟨0, -20⟩, ⟨0, -20⟩, ⟨0, -20⟩, ⟨0, -10⟩, ⟨0, -10⟩⟩

/-- Claim C3, counterexample: for a slice whose observed ankle
y-coordinates are all negative, the maximum observed ankle y is −10, yet the
potential-energy list differs from the one predicted with ground level −10:
the code clamps the ground level at 0, giving 9.81·20 = 196.2 J instead of
9.81·10 = 98.1 J. -/
theorem ground_level_negative_cex :
    listMax ((([some cexFrameC3] : List (Option Frame)).filterMap id).map ankleY)
      = -10 ∧
    potentialEnergies [some cexFrameC3] 1 1 ≠
      [max 0 ((1 : ℚ) * (981/100) * ((-10 - comY cexFrameC3) * 1))] := by
  constructor
  · norm_num [listMax, ankleY, cexFrameC3, List.filterMap_cons, id_eq]
  · norm_num [potentialEnergies, framePE, groundLevel, ankleY, comY, cexFrameC3]

/-- Claim C3 witness: on a single all-zero frame with unit mass and scale,
the pointwise potential-energy characterization holds at index 0. -/
theorem potential_energy_ground_witness :
    (potentialEnergies [some (⟨⟨0, 0⟩, ⟨0, 0⟩, ⟨0, 0⟩, ⟨0, 0⟩, ⟨0, 0⟩, ⟨0, 0⟩⟩ : Frame)] 1 1).getD 0 0 =
      (match ([some (⟨⟨0, 0⟩, ⟨0, 0⟩, ⟨0, 0⟩, ⟨0, 0⟩, ⟨0, 0⟩, ⟨0, 0⟩⟩ : Frame)] : List (Option Frame)).getD 0 none with
       | none => 0
       | some f =>
         max 0 ((1 : ℚ) * (981/100) *
           ((groundLevel [some (⟨⟨0, 0⟩, ⟨0, 0⟩, ⟨0, 0⟩, ⟨0, 0⟩, ⟨0, 0⟩, ⟨0, 0⟩⟩ : Frame)] - comY f) * 1))) :=
  (potential_energy_ground_amended
    [some (⟨⟨0, 0⟩, ⟨0, 0⟩, ⟨0, 0⟩, ⟨0, 0⟩, ⟨0, 0⟩, ⟨0, 0⟩⟩ : Frame)] 1 1).2 0
    (by decide)

/-! ## Lookup lemmas for `dictInsert` and claims C7, C10 -/

lemma lookup_map_replace {V : Type} (k : String) (v : V) :
    ∀ m : List (String × V), m.any (fun p => p.1 = k) = true →
      (m.map (fun p => if p.1 = k then (k, v) else p)).lookup k = some v
  | [], h => by simp at h
  | (a, b) :: t, h => by
    rw [List.map_cons]
    by_cases hk : a = k
    · rw [if_pos hk]
      simp [List.lookup]
    · rw [if_neg hk]
      have ht : t.any (fun p => p.1 = k) = true := by simpa [hk] using h
      have hne : (k == a) = false := beq_eq_false_iff_ne.mpr (Ne.symm hk)
      simpa [List.lookup, hne] using lookup_map_replace k v t ht

lemma lookup_append_missing {V : Type} (k : String) (v : V) :
    ∀ m : List (String × V), m.any (fun p => p.1 = k) = false →
      (m ++ [(k, v)]).lookup k = some v
  | [], _ => by simp [List.lookup]
  | (a, b) :: t, h => by
    have h2 := h
    simp only [List.any_cons, Bool.or_eq_false_iff, decide_eq_false_iff_not] at h2
    obtain ⟨hk, ht⟩ := h2
    have hne : (k == a) = false := beq_eq_false_iff_ne.mpr (Ne.symm hk)
    rw [List.cons_append]
    simpa [List.lookup, hne] using lookup_append_missing k v t ht

lemma lookup_dictInsert_self {V : Type} (m : List (String × V)) (k : String)
    (v : V) : (dictInsert m k v).lookup k = some v := by
  unfold dictInsert
  split
  · next h => exact lookup_map_replace k v m h
  · next h => exact lookup_append_missing k v m (Bool.eq_false_iff.mpr h)

lemma lookup_map_replace_ne {V : Type} (k k' : String) (v : V) (h : k' ≠ k) :
    ∀ m : List (String × V),
      (m.map (fun p => if p.1 = k then (k, v) else p)).lookup k' = m.lookup k'
  | [] => by simp
  | (a, b) :: t => by
    rw [List.map_cons]
    by_cases hk : a = k
    · rw [if_pos hk]
      have hne : (k' == k) = false := beq_eq_false_iff_ne.mpr h
      have hne2 : (k' == a) = false := beq_eq_false_iff_ne.mpr (hk ▸ h)
      simpa [List.lookup, hne, hne2] using lookup_map_replace_ne k k' v h t
    · rw [if_neg hk]
      by_cases hk' : k' = a
      · subst hk'
        simp [List.lookup]
      · have hne : (k' == a) = false := beq_eq_false_iff_ne.mpr hk'
        simpa [List.lookup, hne] using lookup_map_replace_ne k k' v h t

lemma lookup_append_single_ne {V : Type} (k k' : String) (v : V) (h : k' ≠ k) :
    ∀ m : List (String × V), (m ++ [(k, v)]).lookup k' = m.lookup k'
  | [] => by
    have hne : (k' == k) = false := beq_eq_false_iff_ne.mpr h
    simp [List.lookup, hne]
  | (a, b) :: t => by
    rw [List.cons_append]
    by_cases hk' : k' = a
    · subst hk'
      simp [List.lookup]
    · have hne : (k' == a) = false := beq_eq_false_iff_ne.mpr hk'
      simpa [List.lookup, hne] using lookup_append_single_ne k k' v h t

lemma lookup_dictInsert_ne {V : Type} (m : List (String × V)) (k k' : String)
    (v : V) (h : k' ≠ k) : (dictInsert m k v).lookup k' = m.lookup k' := by
  unfold dictInsert
  split
  · exact lookup_map_replace_ne k k' v h m
  · exact lookup_append_single_ne k k' v h m

lemma dictInsert_keys {V : Type} (m : List (String × V)) (k : String) (v : V) :
    (dictInsert m k v).map Prod.fst =
      if m.any (fun p => p.1 = k) then m.map Prod.fst
      else m.map Prod.fst ++ [k] := by
  unfold dictInsert
  split
  · next h =>
    rw [List.map_map]
    refine List.map_congr_left ?_
    intro p _
    by_cases hk : p.1 = k
    · simp [hk]
    · simp [hk]
  · next h =>
    rw [List.map_append]
    rfl

lemma dictInsert_keys_nodup {V : Type} (m : List (String × V)) (k : String)
    (v : V) (h : (m.map Prod.fst).Nodup) :
    ((dictInsert m k v).map Prod.fst).Nodup := by
  rw [dictInsert_keys]
  split
  · exact h
  · next hany =>
    refine List.Nodup.append h (List.nodup_singleton k) ?_
    intro a ha hk
    rw [List.mem_singleton] at hk
    subst hk
    obtain ⟨p, hp, hfst⟩ := List.mem_map.mp ha
    exact hany (List.any_eq_true.mpr ⟨p, hp, decide_eq_true hfst⟩)

/-- The fold of `calculate_phase_energies`: looking up a key returns the
record of the last interval whose phase kind maps to that key, falling back
to the accumulator. -/
lemma calcPE_lookup {ls : List (Option Frame)} {fps m r : ℚ} (key : String) :
    ∀ (phases : List PhaseInterval) (acc : List (String × PhaseEnergy)),
      ((phases.foldl
          (fun acc ph =>
            dictInsert acc (phaseValue ph.phase) (recordOf ls fps m r ph))
          acc).lookup key) =
        (match (phases.filter (fun ph => phaseValue ph.phase == key)).getLast? with
         | some ph => some (recordOf ls fps m r ph)
         | none => acc.lookup key)
  | [], acc => by simp
  | ph :: rest, acc => by
    rw [List.foldl_cons, calcPE_lookup key rest]
    by_cases hph : phaseValue ph.phase = key
    · rw [List.filter_cons_of_pos (by simpa using hph)]
      cases hrf : rest.filter (fun ph => phaseValue ph.phase == key) with
      | nil =>
        simp only [hrf, List.getLast?_nil, List.getLast?_singleton]
        rw [← hph]
        exact lookup_dictInsert_self _ _ _
      | cons x xs =>
        rw [List.getLast?_cons_cons]
        cases hgl2 : (x :: xs).getLast? with
        | none => exact absurd hgl2 (by simp)
        | some q => rfl
    · rw [List.filter_cons_of_neg (by simpa using hph)]
      cases hgl : (rest.filter (fun ph => phaseValue ph.phase == key)).getLast? with
      | none =>
        simp only [hgl]
        exact lookup_dictInsert_ne _ _ _ _ (fun hk => hph hk.symm)
      | some q => simp only [hgl]

lemma calcPE_keys_nodup {ls : List (Option Frame)} {fps m r : ℚ} :
    ∀ (phases : List PhaseInterval) (acc : List (String × PhaseEnergy)),
      (acc.map Prod.fst).Nodup →
      (((phases.foldl
          (fun acc ph =>
            dictInsert acc (phaseValue ph.phase) (recordOf ls fps m r ph))
          acc)).map Prod.fst).Nodup
  | [], _, h => h
  | ph :: rest, acc, h =>
    calcPE_keys_nodup rest _ (dictInsert_keys_nodup _ _ _ h)

/-- Claim C7: `calculate_phase_energies` keys its output by phase kind, so
the map has pairwise-distinct keys and each key holds exactly the record of
the last interval of that kind in input order — earlier intervals of a
repeated kind are silently overwritten. -/
theorem phase_energies_overwrite_last (ls : List (Option Frame))
    (phases : List PhaseInterval) (fps m r : ℚ) (key : String) :
    ((calculatePhaseEnergies ls phases fps m r).map Prod.fst).Nodup ∧
    (calculatePhaseEnergies ls phases fps m r).lookup key =
      ((phases.filter (fun ph => phaseValue ph.phase == key)).getLast?).map
        (recordOf ls fps m r) := by
  constructor
  · exact calcPE_keys_nodup phases [] (by simp)
  · rw [calculatePhaseEnergies, calcPE_lookup key phases []]
    cases h : (phases.filter (fun ph => phaseValue ph.phase == key)).getLast? with
    | none => simp
    | some ph => simp

/-! ## Claim C10: first-frame kinetic energy -/

lemma statsOf_initial (l : List ℝ) : (statsOf l).initial = l.headD 0 := by
  unfold statsOf
  split
  · next h => rw [List.isEmpty_iff.mp h]; rfl
  · rfl

lemma statsOf_final (l : List ℝ) : (statsOf l).final = l.getLastD 0 := by
  unfold statsOf
  split
  · next h => rw [List.isEmpty_iff.mp h]; rfl
  · rfl

lemma frameKE_zero (ls : List (Option Frame)) (fps m r : ℚ) :
    frameKE ls fps m r 0 = 0 := by
  unfold frameKE
  cases h : ls.getD 0 none with
  | none => rfl
  | some cur => simp

lemma kineticEnergies_headD (ls : List (Option Frame)) (fps m r : ℚ) :
    (kineticEnergies ls fps m r).headD 0 = 0 := by
  unfold kineticEnergies
  cases hl : ls.length with
  | zero => rfl
  | succ n =>
    rw [List.range_succ_eq_map, List.map_cons, List.headD_cons, frameKE_zero]

lemma mem_calcPE {ls : List (Option Frame)} {fps m r : ℚ} :
    ∀ (phases : List PhaseInterval) (acc : List (String × PhaseEnergy))
      (q : String × PhaseEnergy),
      q ∈ phases.foldl
          (fun acc ph =>
            dictInsert acc (phaseValue ph.phase) (recordOf ls fps m r ph)) acc →
      q ∈ acc ∨ ∃ ph ∈ phases, q = (phaseValue ph.phase, recordOf ls fps m r ph)
  | [], _, q => fun h => Or.inl h
  | ph :: rest, acc, q => fun h => by
    rcases mem_calcPE rest _ q h with hacc | ⟨ph', hph', hq⟩
    · rcases dictInsert_mem hacc with h1 | h1
      · exact Or.inl h1
      · exact Or.inr ⟨ph, List.mem_cons_self _ _, h1⟩
    · exact Or.inr ⟨ph', List.mem_cons_of_mem _ hph', hq⟩

lemma recordOf_kinetic_initial (ls : List (Option Frame)) (fps m r : ℚ)
    (ph : PhaseInterval) : (recordOf ls fps m r ph).kinetic_energy.initial = 0 := by
  unfold recordOf
  simp only [statsOf_initial]
  exact kineticEnergies_headD _ _ _ _

lemma recordOf_energy_generated (ls : List (Option Frame)) (fps m r : ℚ)
    (ph : PhaseInterval) :
    (recordOf ls fps m r ph).energy_generated =
      (recordOf ls fps m r ph).total_energy.final -
        (recordOf ls fps m r ph).potential_energy.initial := by
  simp only [recordOf, statsOf_initial, statsOf_final]
  cases hs : (ls.drop ph.start_frame).take (ph.end_frame + 1 - ph.start_frame) with
  | nil =>
    simp [kineticEnergies, potentialEnergies]
  | cons f rest =>
    have hk : kineticEnergies (f :: rest) fps m r =
        0 :: ((List.range rest.length).map Nat.succ).map
          (frameKE (f :: rest) fps m r) := by
      unfold kineticEnergies
      rw [List.length_cons, List.range_succ_eq_map, List.map_cons, frameKE_zero]
    have hp : potentialEnergies (f :: rest) m r =
        framePE m r (groundLevel (f :: rest)) f ::
          rest.map (framePE m r (groundLevel (f :: rest))) := by
      unfold potentialEnergies
      rw [List.map_cons]
    rw [hk, hp]
    simp only [List.zipWith_cons_cons, List.map_cons, List.headD_cons,
      List.isEmpty_cons, List.getLastD_cons, Bool.false_eq_true, if_false]
    norm_num

/-- Claim C10: every record in the map returned by
`calculate_phase_energies` has kinetic initial energy 0 (the first frame of
each phase slice is always assigned zero kinetic energy), hence its
`energy_generated` equals total final energy minus potential initial
energy. -/
theorem kinetic_initial_zero_energy_generated (ls : List (Option Frame))
    (phases : List PhaseInterval) (fps m r : ℚ) (k : String) (er : PhaseEnergy)
    (h : (k, er) ∈ calculatePhaseEnergies ls phases fps m r) :
    er.kinetic_energy.initial = 0 ∧
    er.energy_generated = er.total_energy.final - er.potential_energy.initial := by
  rcases mem_calcPE phases [] (k, er) h with h0 | ⟨ph, _, heq⟩
  · exact absurd h0 (List.not_mem_nil _)
  · have her : er = recordOf ls fps m r ph := congrArg Prod.snd heq
    rw [her]
    exact ⟨recordOf_kinetic_initial _ _ _ _ _, recordOf_energy_generated _ _ _ _ _⟩

/-- A frame with every landmark at the origin. -/
def zeroFrame : Frame := ⟨⟨0, 0⟩, ⟨0, 0⟩, ⟨0, 0⟩, ⟨0, 0⟩, ⟨0, 0⟩, ⟨0, 0⟩⟩

/-- Claim C10 witness: a single-frame RUN phase over a single all-zero frame
produces the all-zero record, whose kinetic initial energy is 0 and whose
generated energy matches total final minus potential initial. -/
theorem kinetic_initial_zero_witness :
    (("run", (⟨⟨0, 0, 0, 0⟩, ⟨0, 0, 0, 0⟩, ⟨0, 0, 0, 0⟩, 0, 0⟩ : PhaseEnergy)) ∈
      calculatePhaseEnergies [some zeroFrame]
        [⟨.RUN, 0, 0, 0, ⟨0, 0, 0, 0, 0⟩⟩] 1 1 1) ∧
    ((⟨⟨0, 0, 0, 0⟩, ⟨0, 0, 0, 0⟩, ⟨0, 0, 0, 0⟩, 0, 0⟩ : PhaseEnergy).kinetic_energy.initial = 0 ∧
      (⟨⟨0, 0, 0, 0⟩, ⟨0, 0, 0, 0⟩, ⟨0, 0, 0, 0⟩, 0, 0⟩ : PhaseEnergy).energy_generated =
        (⟨⟨0, 0, 0, 0⟩, ⟨0, 0, 0, 0⟩, ⟨0, 0, 0, 0⟩, 0, 0⟩ : PhaseEnergy).total_energy.final -
          (⟨⟨0, 0, 0, 0⟩, ⟨0, 0, 0, 0⟩, ⟨0, 0, 0, 0⟩, 0, 0⟩ : PhaseEnergy).potential_energy.initial) := by
  have h : ("run", (⟨⟨0, 0, 0, 0⟩, ⟨0, 0, 0, 0⟩, ⟨0, 0, 0, 0⟩, 0, 0⟩ : PhaseEnergy)) ∈
      calculatePhaseEnergies [some zeroFrame]
        [⟨.RUN, 0, 0, 0, ⟨0, 0, 0, 0, 0⟩⟩] 1 1 1 := by
    norm_num [calculatePhaseEnergies, dictInsert, recordOf, kineticEnergies,
      potentialEnergies, frameKE, framePE, groundLevel, statsOf, listMaxR,
      meanR, comY, ankleY, phaseValue, zeroFrame, List.range_succ]
  exact ⟨h, kinetic_initial_zero_energy_generated [some zeroFrame]
    [⟨.RUN, 0, 0, 0, ⟨0, 0, 0, 0, 0⟩⟩] 1 1 1 "run"
    ⟨⟨0, 0, 0, 0⟩, ⟨0, 0, 0, 0⟩, ⟨0, 0, 0, 0⟩, 0, 0⟩ h⟩

/-! ## Phase detector (`phase_detector.py`)

The per-frame velocity and height signals involve only field arithmetic and
stay in `ℚ`; the body-angle signal goes through `np.arctan2` and degrees
conversion and lives in `ℝ`, making the classifier noncomputable.  None of
the claims below depend on the classifier's value at any frame, only on the
interval-building loop around it. -/

/-- Per-frame horizontal center-of-mass velocity
(`PhaseDetector._calculate_velocities` loop body): 0 for a null frame, the
first frame, or a null predecessor. -/
def frameVelocity (ls : List (Option Frame)) (fps : ℚ) (i : ℕ) : ℚ :=
  match ls.getD i none with
  | none => 0
  | some cur =>
    if i = 0 then 0
    else
      match ls.getD (i - 1) none with
      | none => 0
      | some prev => (comX cur - comX prev) * fps

/-- `PhaseDetector._calculate_velocities`. -/
def calcVelocities (ls : List (Option Frame)) (fps : ℚ) : List ℚ :=
  (List.range ls.length).map (frameVelocity ls fps)

/-- Per-frame clearance height (`_calculate_heights` loop body): lower ankle
y minus mid-hip y, 0 for a null frame. -/
def frameHeight (of : Option Frame) : ℚ :=
  match of with
  | none => 0
  | some f =>
    max f.left_ankle.y f.right_ankle.y - (f.left_hip.y + f.right_hip.y) / 2

/-- `PhaseDetector._calculate_heights`. -/
def calcHeights (ls : List (Option Frame)) : List ℚ := ls.map frameHeight

/-- `np.arctan2` on reals (quadrant-aware arctangent). -/
noncomputable def atan2 (y x : ℝ) : ℝ :=
  if 0 < x then Real.arctan (y / x)
  else if x < 0 ∧ 0 ≤ y then Real.arctan (y / x) + Real.pi
  else if x < 0 ∧ y < 0 then Real.arctan (y / x) - Real.pi
  else if x = 0 ∧ 0 < y then Real.pi / 2
  else if x = 0 ∧ y < 0 then -(Real.pi / 2)
  else 0

/-- Per-frame body tilt angle in degrees (`_calculate_body_angles` loop
body): arctangent of the mid-shoulder → mid-hip vector, 0 for a null
frame. -/
noncomputable def frameAngle (of : Option Frame) : ℝ :=
  match of with
  | none => 0
  | some f =>
    let sx := ((f.left_shoulder.x + f.right_shoulder.x : ℚ) : ℝ) / 2
    let sy := ((f.left_shoulder.y + f.right_shoulder.y : ℚ) : ℝ) / 2
    let hx := ((f.left_hip.x + f.right_hip.x : ℚ) : ℝ) / 2
    let hy := ((f.left_hip.y + f.right_hip.y : ℚ) : ℝ) / 2
    atan2 (hy - sy) (hx - sx) * 180 / Real.pi

/-- `PhaseDetector._calculate_body_angles`. -/
noncomputable def calcAngles (ls : List (Option Frame)) : List ℝ :=
  ls.map frameAngle

/-- `PhaseDetector._identify_phase`: window-smoothed signals classified by
the ordered threshold rules, defaulting to RUN. -/
noncomputable def identifyPhase (vels hts : List ℚ) (angs : List ℝ)
    (i : ℕ) : VaultPhase :=
  let s := i - 5
  let e := min vels.length (i + 6)
  let av := meanQ ((vels.drop s).take (e - s))
  let ah := meanQ ((hts.drop s).take (e - s))
  let aa := meanR ((angs.drop s).take (e - s))
  if av > 50 ∧ ah < 150 ∧ |aa| < 30 then .RUN
  else if 20 < av ∧ av < 50 ∧ 100 < ah ∧ ah < 200 then .PLANT
  else if av > 0 ∧ 150 < ah ∧ ah < 300 ∧ |aa| < 60 then .TAKEOFF
  else if ah > 200 ∧ 30 < |aa| ∧ |aa| < 90 then .SWING_UP
  else if ah > 250 ∧ |aa| > 80 then .EXTENSION_INVERSION
  else if ah > 300 ∧ 45 < |aa| ∧ |aa| < 90 then .PUSH_OFF
  else if ah > 200 ∧ |aa| < 45 then .PIKE
  else .RUN

/-- The `velocity_stats` dict of one closed interval: statistics over the
non-zero raw velocities of the slice, with raw first/last as
initial/final, all zero when no non-zero velocity exists. -/
def velocityStats (vs : List ℚ) : VelocityStats :=
  let f := vs.filter (fun v => v ≠ 0)
  if f.isEmpty then ⟨0, 0, 0, 0, 0⟩
  else ⟨listMax f, meanQ f, listMin f, vs.headD 0, vs.getLastD 0⟩

/-- The frame walk of `detect_phases`: skip null frames, open a new interval
whenever the classified phase changes, close the open interval at a change
(ending at the previous index) and at the end of the sequence (ending at the
last index). -/
def detectGo (idf : ℕ → VaultPhase) (ls : List (Option Frame)) (fps : ℚ)
    (vels : List ℚ) : List ℕ → Option VaultPhase → ℕ → List PhaseInterval
  | [], none, _ => []
  | [], some p, s =>
    [⟨p, s, ls.length - 1, ((ls.length - s : ℕ) : ℚ) / fps,
      velocityStats (vels.drop s)⟩]
  | i :: rest, none, s =>
    if (ls.getD i none).isNone then detectGo idf ls fps vels rest none s
    else detectGo idf ls fps vels rest (some (idf i)) i
  | i :: rest, some p, s =>
    if (ls.getD i none).isNone then detectGo idf ls fps vels rest (some p) s
    else if idf i = p then detectGo idf ls fps vels rest (some p) s
    else
      ⟨p, s, i - 1, ((i - s : ℕ) : ℚ) / fps,
          velocityStats ((vels.drop s).take (i - s))⟩ ::
        detectGo idf ls fps vels rest (some (idf i)) i

/-- `PhaseDetector.detect_phases`. -/
noncomputable def detect_phases (ls : List (Option Frame)) (vi : VideoInfo) :
    List PhaseInterval :=
  if ls.isEmpty then []
  else
    detectGo
      (identifyPhase (calcVelocities ls vi.fps) (calcHeights ls) (calcAngles ls))
      ls vi.fps (calcVelocities ls vi.fps) (List.range ls.length) none 0

/-! ## Claim C5: empty and all-null inputs -/

lemma getD_none_of_all_null {ls : List (Option Frame)}
    (h : ∀ f ∈ ls, f = none) (i : ℕ) : ls.getD i none = none := by
  by_cases hi : i < ls.length
  · rw [List.getD_eq_getElem ls none hi]
    exact h _ (List.getElem_mem hi)
  · rw [List.getD_eq_getElem?_getD, List.getElem?_eq_none (by omega)]
    rfl

lemma detectGo_all_null {idf : ℕ → VaultPhase} {ls : List (Option Frame)}
    {fps : ℚ} {vels : List ℚ} (h : ∀ f ∈ ls, f = none) :
    ∀ (idxs : List ℕ) (s : ℕ),
      detectGo idf ls fps vels idxs none s = []
  | [], _ => rfl
  | i :: rest, s => by
    have hi : (ls.getD i none).isNone = true := by
      rw [getD_none_of_all_null h i]; rfl
    rw [detectGo, if_pos hi]
    exact detectGo_all_null h rest s

/-- Claim C5: `detect_phases` returns the empty phase list on the empty
landmark sequence and on any sequence whose entries are all null. -/
theorem detect_phases_all_null_empty (ls : List (Option Frame))
    (vi : VideoInfo) (h : ∀ f ∈ ls, f = none) : detect_phases ls vi = [] := by
  unfold detect_phases
  split
  · rfl
  · exact detectGo_all_null h _ _

/-- Claim C5 witness: a two-frame all-null sequence yields no phases. -/
theorem detect_phases_all_null_witness :
    (∀ f ∈ ([none, none] : List (Option Frame)), f = none) ∧
    detect_phases [none, none] ⟨30, 0, 0, 0⟩ = [] := by
  have h : ∀ f ∈ ([none, none] : List (Option Frame)), f = none := by simp
  exact ⟨h, detect_phases_all_null_empty [none, none] ⟨30, 0, 0, 0⟩ h⟩

/-! ## Claim C2: interval coverage -/

/-- `coversFrom N a l` states that the intervals of `l` are contiguous,
non-overlapping, ordered by start frame, and exactly cover the index range
`[a, N-1]`: the first starts at `a`, each has a nonempty in-bounds range,
each next starts right after the previous ends, and the last ends at
`N - 1`. -/
def coversFrom (N : ℕ) : ℕ → List PhaseInterval → Prop
  | a, [] => a = N
  | a, p :: rest =>
    p.start_frame = a ∧ p.start_frame ≤ p.end_frame ∧ p.end_frame < N ∧
      coversFrom N (p.end_frame + 1) rest

lemma covGo_some {idf : ℕ → VaultPhase} {ls : List (Option Frame)} {fps : ℚ}
    {vels : List ℚ} :
    ∀ (n i s : ℕ) (p : VaultPhase), s < i → i + n = ls.length →
      coversFrom ls.length s
        (detectGo idf ls fps vels (List.range' i n) (some p) s)
  | 0, i, s, p, hsi, hN => by
    rw [List.range'_zero, detectGo]
    refine ⟨rfl, ?_, ?_, ?_⟩
    · show s ≤ ls.length - 1
      omega
    · show ls.length - 1 < ls.length
      omega
    · show ls.length - 1 + 1 = ls.length
      omega
  | n + 1, i, s, p, hsi, hN => by
    rw [List.range'_succ, detectGo]
    by_cases hnull : (ls.getD i none).isNone
    · rw [if_pos hnull]
      exact covGo_some n (i + 1) s p (by omega) (by omega)
    · rw [if_neg hnull]
      by_cases heq : idf i = p
      · rw [if_pos heq]
        exact covGo_some n (i + 1) s p (by omega) (by omega)
      · rw [if_neg heq]
        refine ⟨rfl, ?_, ?_, ?_⟩
        · show s ≤ i - 1
          omega
        · show i - 1 < ls.length
          omega
        · show coversFrom ls.length (i - 1 + 1) _
          have h1 : i - 1 + 1 = i := by omega
          rw [h1]
          exact covGo_some n (i + 1) i (idf i) (by omega) (by omega)

lemma covGo_none {idf : ℕ → VaultPhase} {ls : List (Option Frame)} {fps : ℚ}
    {vels : List ℚ} :
    ∀ (n i s j : ℕ), i + n = ls.length →
      (ls.drop i).findIdx? (fun f => f.isSome) = some j →
      coversFrom ls.length (i + j)
        (detectGo idf ls fps vels (List.range' i n) none s)
  | 0, i, s, j, hN, hfind => by
    rw [List.drop_eq_nil_iff.mpr (by omega)] at hfind
    simp at hfind
  | n + 1, i, s, j, hN, hfind => by
    have hi : i < ls.length := by omega
    rw [List.drop_eq_getElem_cons hi, List.findIdx?_cons, List.findIdx?_succ]
      at hfind
    have hgd : ls.getD i none = ls[i] := List.getD_eq_getElem ls none hi
    rw [List.range'_succ, detectGo]
    by_cases hsome : (ls[i]).isSome
    · rw [if_pos hsome] at hfind
      have hj : j = 0 := by simpa using hfind.symm
      have hnull : ¬ (ls.getD i none).isNone = true := by
        rw [hgd]
        simp [Option.isSome_iff_exists] at hsome
        obtain ⟨f, hf⟩ := hsome
        simp [hf]
      rw [if_neg hnull, hj]
      have := @covGo_some idf ls fps vels
        n (i + 1) i (idf i) (by omega) (by omega)
      simpa using this
    · rw [if_neg hsome] at hfind
      have hnull : (ls.getD i none).isNone = true := by
        rw [hgd]
        cases hx : ls[i] with
        | none => rfl
        | some f => exact absurd (by simp [hx]) hsome
      obtain ⟨j', hfind', hj⟩ := Option.map_eq_some'.mp hfind
      rw [if_pos hnull]
      have := @covGo_none idf ls fps vels
        n (i + 1) s j' (by omega) hfind'
      have heq : i + j = (i + 1) + j' := by omega
      rw [heq]
      exact this

/-- Claim C2 (amended): for every landmark sequence with at least one
non-null frame (first one at index `k`), the intervals emitted by
`detect_phases` are contiguous, non-overlapping, ordered by start frame, and
together cover exactly the index range `[k, N-1]` — which is `[0, N-1]`
exactly when the first frame is non-null. -/
theorem detect_phases_coverage_amended (ls : List (Option Frame))
    (vi : VideoInfo) (k : ℕ)
    (h : ls.findIdx? (fun f => f.isSome) = some k) :
    coversFrom ls.length k (detect_phases ls vi) := by
  have hne : ¬ ls.isEmpty = true := by
    intro he
    rw [List.isEmpty_iff.mp he] at h
    simp at h
  unfold detect_phases
  rw [if_neg hne, List.range_eq_range']
  have := @covGo_none
    (identifyPhase (calcVelocities ls vi.fps) (calcHeights ls) (calcAngles ls))
    ls vi.fps (calcVelocities ls vi.fps)
    ls.length 0 0 k (by omega) (by simpa using h)
  simpa using this

/-- Claim C2, counterexample: a sequence whose first frame is null but whose
second frame is valid is non-empty with a non-null frame, yet the emitted
intervals cover `[1, 1]`, not `[0, 1]`: the claim's partition of `[0, N-1]`
fails. -/
theorem coverage_leading_null_cex :
    ([none, some zeroFrame] : List (Option Frame)) ≠ [] ∧
    some zeroFrame ∈ ([none, some zeroFrame] : List (Option Frame)) ∧
    ¬ coversFrom 2 0 (detect_phases [none, some zeroFrame] ⟨30, 0, 0, 0⟩) := by
  refine ⟨by simp, by simp, ?_⟩
  intro hcov
  have hshape : detect_phases [none, some zeroFrame] ⟨30, 0, 0, 0⟩ =
      [⟨identifyPhase (calcVelocities [none, some zeroFrame] 30)
          (calcHeights [none, some zeroFrame])
          (calcAngles [none, some zeroFrame]) 1, 1, 1, (1 : ℚ) / 30,
        velocityStats ((calcVelocities [none, some zeroFrame] 30).drop 1)⟩] := by
    simp [detect_phases, detectGo, List.range_succ]
  rw [hshape] at hcov
  exact absurd hcov.1 (by norm_num)

/-- Claim C2 witness: a single valid frame has its first non-null frame at
index 0 and the emitted intervals cover `[0, 0]`. -/
theorem detect_phases_coverage_witness :
    ([some zeroFrame] : List (Option Frame)).findIdx? (fun f => f.isSome) =
      some 0 ∧
    coversFrom 1 0 (detect_phases [some zeroFrame] ⟨30, 0, 0, 0⟩) := by
  have h : ([some zeroFrame] : List (Option Frame)).findIdx?
      (fun f => f.isSome) = some 0 := rfl
  exact ⟨h, detect_phases_coverage_amended [some zeroFrame] ⟨30, 0, 0, 0⟩ 0 h⟩

/-! ## Claim C8: velocity statistics of each interval -/

lemma le_foldl_max (a : ℚ) : ∀ t : List ℚ,
    a ≤ t.foldl max a ∧ ∀ x ∈ t, x ≤ t.foldl max a
  | [] => ⟨le_refl a, by simp⟩
  | y :: t => by
    obtain ⟨h1, h2⟩ := le_foldl_max (max a y) t
    rw [List.foldl_cons]
    refine ⟨le_trans (le_max_left a y) h1, ?_⟩
    intro x hx
    rcases List.mem_cons.mp hx with rfl | hx
    · exact le_trans (le_max_right a x) h1
    · exact h2 x hx

lemma foldl_max_mem (a : ℚ) : ∀ t : List ℚ, t.foldl max a ∈ a :: t
  | [] => by simp
  | y :: t => by
    rw [List.foldl_cons]
    have h := foldl_max_mem (max a y) t
    rcases List.mem_cons.mp h with h1 | h1
    · rw [h1]
      rcases max_choice a y with hc | hc <;> rw [hc] <;> simp
    · exact List.mem_cons_of_mem _ (List.mem_cons_of_mem _ h1)

lemma foldl_min_le (a : ℚ) : ∀ t : List ℚ,
    t.foldl min a ≤ a ∧ ∀ x ∈ t, t.foldl min a ≤ x
  | [] => ⟨le_refl a, by simp⟩
  | y :: t => by
    obtain ⟨h1, h2⟩ := foldl_min_le (min a y) t
    rw [List.foldl_cons]
    refine ⟨le_trans h1 (min_le_left a y), ?_⟩
    intro x hx
    rcases List.mem_cons.mp hx with rfl | hx
    · exact le_trans h1 (min_le_right a x)
    · exact h2 x hx

lemma foldl_min_mem (a : ℚ) : ∀ t : List ℚ, t.foldl min a ∈ a :: t
  | [] => by simp
  | y :: t => by
    rw [List.foldl_cons]
    have h := foldl_min_mem (min a y) t
    rcases List.mem_cons.mp h with h1 | h1
    · rw [h1]
      rcases min_choice a y with hc | hc <;> rw [hc] <;> simp
    · exact List.mem_cons_of_mem _ (List.mem_cons_of_mem _ h1)

lemma listMax_mem {l : List ℚ} (h : l ≠ []) : listMax l ∈ l := by
  cases l with
  | nil => exact absurd rfl h
  | cons x t => simpa [listMax] using foldl_max_mem x t

lemma le_listMax {l : List ℚ} {x : ℚ} (h : x ∈ l) : x ≤ listMax l := by
  cases l with
  | nil => simp at h
  | cons a t =>
    rcases List.mem_cons.mp h with rfl | hx
    · exact (le_foldl_max x t).1
    · exact (le_foldl_max a t).2 x hx

lemma listMin_mem {l : List ℚ} (h : l ≠ []) : listMin l ∈ l := by
  cases l with
  | nil => exact absurd rfl h
  | cons x t => simpa [listMin] using foldl_min_mem x t

lemma listMin_le {l : List ℚ} {x : ℚ} (h : x ∈ l) : listMin l ≤ x := by
  cases l with
  | nil => simp at h
  | cons a t =>
    rcases List.mem_cons.mp h with rfl | hx
    · exact (foldl_min_le x t).1
    · exact (foldl_min_le a t).2 x hx

/-- What claim C8 asserts of one emitted interval: over the slice of raw
(unsmoothed) per-frame velocities in the interval's frame range, the non-zero
subsequence determines `max`, `min` and `average`, the raw first/last
velocities give `initial`/`final`, and all five statistics are 0 when no
non-zero velocity exists. -/
def statsSpec (vels : List ℚ) (p : PhaseInterval) : Prop :=
  let sl := (vels.drop p.start_frame).take (p.end_frame + 1 - p.start_frame)
  let f := sl.filter (fun v => v ≠ 0)
  (f = [] → p.velocity_stats = ⟨0, 0, 0, 0, 0⟩) ∧
  (f ≠ [] →
    p.velocity_stats.max ∈ f ∧ (∀ x ∈ f, x ≤ p.velocity_stats.max) ∧
    p.velocity_stats.min ∈ f ∧ (∀ x ∈ f, p.velocity_stats.min ≤ x) ∧
    p.velocity_stats.average = f.sum / f.length ∧
    p.velocity_stats.initial = sl.headD 0 ∧
    p.velocity_stats.final = sl.getLastD 0)

lemma statsSpec_of_velocityStats {vels : List ℚ} {p : PhaseInterval}
    (h : p.velocity_stats =
      velocityStats
        ((vels.drop p.start_frame).take (p.end_frame + 1 - p.start_frame))) :
    statsSpec vels p := by
  unfold statsSpec
  constructor
  · intro hf
    rw [h]
    unfold velocityStats
    rw [if_pos (by rw [hf]; rfl)]
  · intro hf
    rw [h]
    unfold velocityStats
    rw [if_neg (by simp only [List.isEmpty_iff]; exact hf)]
    exact ⟨listMax_mem hf, fun x hx => le_listMax hx, listMin_mem hf,
      fun x hx => listMin_le hx, rfl, rfl, rfl⟩

lemma statsGo {idf : ℕ → VaultPhase} {ls : List (Option Frame)} {fps : ℚ}
    {vels : List ℚ} (hv : vels.length = ls.length) :
    ∀ (n i s : ℕ) (cur : Option VaultPhase) (q : PhaseInterval),
      (cur.isSome = true → s < i) → i + n = ls.length →
      q ∈ detectGo idf ls fps vels (List.range' i n) cur s →
      q.velocity_stats =
        velocityStats
          ((vels.drop q.start_frame).take (q.end_frame + 1 - q.start_frame))
  | 0, i, s, none, q, hcur, hN => by
    rw [List.range'_zero, detectGo]
    intro h
    exact absurd h (List.not_mem_nil _)
  | 0, i, s, some p, q, hcur, hN => by
    rw [List.range'_zero, detectGo]
    intro h
    rw [List.mem_singleton] at h
    subst h
    have hs : s < ls.length := by
      have := hcur rfl
      omega
    show velocityStats (vels.drop s) =
      velocityStats ((vels.drop s).take (ls.length - 1 + 1 - s))
    have h1 : ls.length - 1 + 1 - s = (vels.drop s).length := by
      rw [List.length_drop, hv]
      omega
    rw [h1, List.take_length]
  | n + 1, i, s, cur, q, hcur, hN => by
    rw [List.range'_succ]
    cases cur with
    | none =>
      rw [detectGo]
      by_cases hnull : (ls.getD i none).isNone
      · rw [if_pos hnull]
        exact statsGo hv n (i + 1) s none q (by simp) (by omega)
      · rw [if_neg hnull]
        exact statsGo hv n (i + 1) i (some (idf i)) q (fun _ => by omega)
          (by omega)
    | some p =>
      have hsi : s < i := hcur rfl
      rw [detectGo]
      by_cases hnull : (ls.getD i none).isNone
      · rw [if_pos hnull]
        exact statsGo hv n (i + 1) s (some p) q (fun _ => by omega) (by omega)
      · rw [if_neg hnull]
        by_cases heq : idf i = p
        · rw [if_pos heq]
          exact statsGo hv n (i + 1) s (some p) q (fun _ => by omega) (by omega)
        · rw [if_neg heq]
          intro h
          rcases List.mem_cons.mp h with rfl | h2
          · show velocityStats ((vels.drop s).take (i - s)) =
              velocityStats ((vels.drop s).take (i - 1 + 1 - s))
            have h1 : i - 1 + 1 - s = i - s := by omega
            rw [h1]
          · exact statsGo hv n (i + 1) i (some (idf i)) q (fun _ => by omega)
              (by omega) h2

/-- Claim C8: every interval emitted by `detect_phases` satisfies the
velocity-statistics characterization `statsSpec` over the raw velocity
series: `max`/`min`/`average` over the non-zero velocities of its frame
range, raw first/last as `initial`/`final`, all five zero when no non-zero
velocity exists. -/
theorem velocity_stats_characterization (ls : List (Option Frame))
    (vi : VideoInfo) (p : PhaseInterval) (hp : p ∈ detect_phases ls vi) :
    statsSpec (calcVelocities ls vi.fps) p := by
  apply statsSpec_of_velocityStats
  unfold detect_phases at hp
  split at hp
  · exact absurd hp (List.not_mem_nil _)
  · rw [List.range_eq_range'] at hp
    exact statsGo (by simp [calcVelocities]) ls.length 0 0 none p (by simp)
      (by omega) hp

/-- Claim C8 witness: the single interval produced by a one-frame sequence
satisfies the statistics characterization. -/
theorem velocity_stats_witness :
    ((detect_phases [some zeroFrame] ⟨30, 0, 0, 0⟩).headD
        ⟨.RUN, 0, 0, 0, ⟨0, 0, 0, 0, 0⟩⟩ ∈
      detect_phases [some zeroFrame] ⟨30, 0, 0, 0⟩) ∧
    statsSpec (calcVelocities [some zeroFrame] 30)
      ((detect_phases [some zeroFrame] ⟨30, 0, 0, 0⟩).headD
        ⟨.RUN, 0, 0, 0, ⟨0, 0, 0, 0, 0⟩⟩) := by
  have hshape : detect_phases [some zeroFrame] ⟨30, 0, 0, 0⟩ =
      [⟨identifyPhase (calcVelocities [some zeroFrame] 30)
          (calcHeights [some zeroFrame]) (calcAngles [some zeroFrame]) 0,
        0, 0, (1 : ℚ) / 30,
        velocityStats ((calcVelocities [some zeroFrame] 30).drop 0)⟩] := by
    simp [detect_phases, detectGo, List.range_succ]
  have hmem : (detect_phases [some zeroFrame] ⟨30, 0, 0, 0⟩).headD
      ⟨.RUN, 0, 0, 0, ⟨0, 0, 0, 0, 0⟩⟩ ∈
      detect_phases [some zeroFrame] ⟨30, 0, 0, 0⟩ := by
    rw [hshape]
    simp
  exact ⟨hmem,
    velocity_stats_characterization [some zeroFrame] ⟨30, 0, 0, 0⟩ _ hmem⟩
